import Mathlib

/-!
# Verification of the ELF packer (`elf_packer.py`)

A shallow embedding of the 32-bit ELF packer: the byte buffer is a
`List Nat` (each element one byte), machine integers are `Nat` with
explicit `% 2^w` where overflow matters, and fallible code (Python
exceptions) is modelled with `Option`.  Loops are translated to
structural recursion on an explicit remaining-iteration count equal to
the number of iterations the Python loop performs, so that every
definition evaluates by kernel reduction.
-/

set_option autoImplicit false
set_option maxRecDepth 100000

namespace ElfPacker

/-- A byte read `data[i]`.  Python raises `IndexError` out of range; the
theorems below carry explicit in-bounds hypotheses where that matters,
and this total model returns `0` out of range. -/
def byteAt (data : List Nat) (i : Nat) : Nat := data.getD i 0

/-- Little-endian 16-bit read, as `struct.unpack` field `H`. -/
def read16 (data : List Nat) (i : Nat) : Nat :=
  byteAt data i + 256 * byteAt data (i + 1)

/-- Little-endian 32-bit read, as `struct.unpack` field `I`. -/
def read32 (data : List Nat) (i : Nat) : Nat :=
  byteAt data i + 256 * byteAt data (i + 1) + 65536 * byteAt data (i + 2)
    + 16777216 * byteAt data (i + 3)

/-- `pwnlib.util.packing.p32`: the 4 little-endian bytes of a 32-bit value
(`p32` rejects values `≥ 2^32`; theorems carry that bound as a hypothesis). -/
def p32 (v : Nat) : List Nat :=
  [v % 256, v / 256 % 256, v / 65536 % 256, v / 16777216 % 256]

/-- The 2 little-endian bytes of a 16-bit value (used to build test images). -/
def w16 (v : Nat) : List Nat := [v % 256, v / 256 % 256]

/-- `SectionType.SHT_NOBITS.value` in the source. -/
def SHT_NOBITS : Nat := 8

/-- The Python comparison `sec.sh_type == SectionType.SHT_NOBITS` in
`find_cave`: `sh_type` is a plain `int` from `struct.unpack` while
`SectionType.SHT_NOBITS` is a member of a non-`IntEnum` `Enum` class.
In Python an `int` never compares equal to such an enum member, so this
comparison is `False` for every argument. -/
def py_int_eq_enum (shType : Nat) (enumMemberValue : Nat) : Bool := false

/-- One entry of the section header table (class `Section`).  The `name`
attribute is attached by the second pass of `parse_sections_header`;
freshly unpacked sections carry the default `[]`. -/
structure Sec where
  sh_name : Nat
  sh_type : Nat
  sh_flags : Nat
  sh_addr : Nat
  sh_offset : Nat
  sh_size : Nat
  sh_link : Nat
  sh_info : Nat
  sh_addralign : Nat
  sh_entsize : Nat
  name : List Nat := []
deriving DecidableEq, Repr

/-- The parsed ELF header (the fields `parse_header` unpacks from
`data[:52]` with format `16sHHIIIIIHHHHHH`, little-endian, no padding). -/
structure Header where
  e_ident : List Nat
  e_type : Nat
  e_machine : Nat
  e_version : Nat
  e_entry : Nat
  e_phoff : Nat
  e_shoff : Nat
  e_flags : Nat
  e_ehsize : Nat
  e_phentsize : Nat
  e_phnum : Nat
  e_shentsize : Nat
  e_shnum : Nat
  e_shstrndx : Nat
deriving DecidableEq, Repr

/-- `Elf.parse_header`: unpack the 52-byte header from `data[:52]`.
`struct.unpack` raises unless the slice is exactly 52 bytes long,
hence `none` on a shorter buffer. -/
def parse_header (data : List Nat) : Option Header :=
  if 52 ≤ data.length then
    some
      { e_ident := data.take 16
        e_type := read16 data 16
        e_machine := read16 data 18
        e_version := read32 data 20
        e_entry := read32 data 24
        e_phoff := read32 data 28
        e_shoff := read32 data 32
        e_flags := read32 data 36
        e_ehsize := read16 data 40
        e_phentsize := read16 data 42
        e_phnum := read16 data 44
        e_shentsize := read16 data 46
        e_shnum := read16 data 48
        e_shstrndx := read16 data 50 }
  else none

/-- Unpack section-table entry `idx` (format `IIIIIIIIII`, 40 bytes) at
`shoff + idx * entsize`.  `struct.unpack` raises unless the chunk sliced
out of the section table is exactly 40 bytes, i.e. unless the entry size
is 40 and the entry lies inside the buffer. -/
def readSec (data : List Nat) (shoff entsize idx : Nat) : Option Sec :=
  if entsize = 40 ∧ shoff + idx * entsize + 40 ≤ data.length then
    let base := shoff + idx * entsize
    some
      { sh_name := read32 data base
        sh_type := read32 data (base + 4)
        sh_flags := read32 data (base + 8)
        sh_addr := read32 data (base + 12)
        sh_offset := read32 data (base + 16)
        sh_size := read32 data (base + 20)
        sh_link := read32 data (base + 24)
        sh_info := read32 data (base + 28)
        sh_addralign := read32 data (base + 32)
        sh_entsize := read32 data (base + 36) }
  else none

/-- The Python statements
`if (not self.sections.get(sh_type)): self.sections[sh_type] = []` and
`self.sections[sh_type].append(sec)` on the insertion-ordered dictionary
`self.sections`, modelled as an association list: a new key is appended
at the end, an existing key has the section appended to its group. -/
def dictAdd (d : List (Nat × List Sec)) (k : Nat) (s : Sec) :
    List (Nat × List Sec) :=
  match d with
  | [] => [(k, [s])]
  | (k2, g) :: rest =>
      if k2 = k then (k2, g ++ [s]) :: rest else (k2, g) :: dictAdd rest k s

/-- The first loop of `parse_sections_header`:
`for sec_index in range(1, self.e_shnum)` unpack the entry, insert it in
the type-keyed dictionary, and record `string_table_offset` when the
index equals `e_shstrndx`.  `rem` counts the remaining iterations
(`e_shnum - idx` at entry). -/
def buildSections (data : List Nat) (shoff entsize shstrndx : Nat) :
    Nat → Nat → List (Nat × List Sec) → Option Nat →
    Option (List (Nat × List Sec) × Option Nat)
  | 0, _, acc, sto => some (acc, sto)
  | rem + 1, idx, acc, sto =>
      match readSec data shoff entsize idx with
      | none => none
      | some s =>
          buildSections data shoff entsize shstrndx rem (idx + 1)
            (dictAdd acc s.sh_type s)
            (if idx = shstrndx then some s.sh_offset else sto)

/-- The scanning loop of `get_string`: read bytes from position `pos`
until a zero byte, accumulating the characters.  Running past the end of
the buffer is Python `IndexError`, hence `none`.  `rem` is
`data.length - pos` at entry, the maximal number of reads left. -/
def getStringAux (data : List Nat) : Nat → Nat → Option (List Nat)
  | 0, _ => none
  | rem + 1, pos =>
      if h : pos < data.length then
        let c := data.get ⟨pos, h⟩
        if c = 0 then some []
        else (getStringAux data rem (pos + 1)).map (fun s => c :: s)
      else none

/-- `Elf.get_string`: decode the zero-terminated string at
`string_table_offset + index`. -/
def get_string (data : List Nat) (sto index : Nat) : Option (List Nat) :=
  getStringAux data (data.length - (sto + index)) (sto + index)

/-- The inner loop of the second pass of `parse_sections_header`: resolve
`sec.name = get_string(sec.sh_name)` for every section of one group. -/
def resolveSecs (data : List Nat) (sto : Nat) : List Sec → Option (List Sec)
  | [] => some []
  | s :: rest =>
      match get_string data sto s.sh_name with
      | none => none
      | some n => (resolveSecs data sto rest).map
          (fun l => { s with name := n } :: l)

/-- The outer loop of the second pass of `parse_sections_header`, over the
groups of the type-keyed dictionary. -/
def resolveDict (data : List Nat) (sto : Nat) :
    List (Nat × List Sec) → Option (List (Nat × List Sec))
  | [] => some []
  | (t, g) :: rest =>
      match resolveSecs data sto g with
      | none => none
      | some g2 => (resolveDict data sto rest).map (fun l => (t, g2) :: l)

/-- `Elf.parse_sections_header`: build the type-keyed dictionary of
sections from entries `1 .. e_shnum - 1`, remember the string-table
offset, then resolve every section's name.  A nonempty dictionary with
no recorded string-table offset crashes in Python (`string_table_offset`
was never assigned), hence `none`. -/
def parse_sections_header (data : List Nat) (h : Header) :
    Option (List (Nat × List Sec) × Option Nat) :=
  match buildSections data h.e_shoff h.e_shentsize h.e_shstrndx
      (h.e_shnum - 1) 1 [] none with
  | none => none
  | some (d, sto) =>
      match d, sto with
      | [], _ => some ([], sto)
      | _ :: _, none => none
      | g :: rest, some v =>
          (resolveDict data v (g :: rest)).map (fun d2 => (d2, some v))

/-- The inner loop of `Elf.get_section`: first section of a group whose
resolved name equals the target. -/
def getSecGroup : List Sec → List Nat → Option Sec
  | [], _ => none
  | s :: rest, target =>
      if s.name = target then some s else getSecGroup rest target

/-- `Elf.get_section`: first section across the dictionary groups, in
dictionary iteration order, whose name equals the target. -/
def get_section (d : List (Nat × List Sec)) (target : List Nat) : Option Sec :=
  match d with
  | [] => none
  | (_, g) :: rest =>
      match getSecGroup g target with
      | some s => some s
      | none => get_section rest target

/-- The `while (index < sec.sh_size)` loop of `find_cave`.  One iteration
reads `data[off + index]`, increments `index`, then either extends the
current zero run (`seen_nulls += 1`) or resets it (`checkpoint = index;
seen_nulls = 0`), and breaks as soon as `seen_nulls == required_size`.
`rem` is `size - index` at entry, the number of iterations left. -/
def caveLoop (data : List Nat) (off R : Nat) :
    Nat → Nat → Nat → Nat → Nat × Nat
  | 0, _, seen, cp => (seen, cp)
  | rem + 1, index, seen, cp =>
      let c := byteAt data (off + index)
      let seen2 := if c = 0 then seen + 1 else 0
      let cp2 := if c = 0 then cp else index + 1
      if seen2 = R then (seen2, cp2)
      else caveLoop data off R rem (index + 1) seen2 cp2

/-- The per-section body of `find_cave`: run the scanning loop over the
section's file range; if the run never reached `required_size` the
section yields nothing (`continue`), otherwise the result is
`(sh_addr + checkpoint, sh_offset + checkpoint)`. -/
def scanSec (data : List Nat) (sec : Sec) (R : Nat) : Option (Nat × Nat) :=
  let r := caveLoop data sec.sh_offset R sec.sh_size 0 0 0
  if r.1 < R then none
  else some (sec.sh_addr + r.2, sec.sh_offset + r.2)

/-- The inner `for sec in self.sections.get(sec_type)` loop of
`find_cave`.  The guard `sec.sh_type == SectionType.SHT_NOBITS` is the
always-false int-versus-Enum comparison `py_int_eq_enum`. -/
def findCaveGroup (data : List Nat) : List Sec → Nat → Option (Nat × Nat)
  | [], _ => none
  | s :: rest, R =>
      if py_int_eq_enum s.sh_type SHT_NOBITS then findCaveGroup data rest R
      else
        match scanSec data s R with
        | some r => some r
        | none => findCaveGroup data rest R

/-- `Elf.find_cave`: iterate the groups of the type-keyed dictionary in
insertion order, scanning each section; the first section whose scan
succeeds determines the result, and the implicit Python `return None`
is `none`. -/
def find_cave (data : List Nat) (d : List (Nat × List Sec)) (R : Nat) :
    Option (Nat × Nat) :=
  match d with
  | [] => none
  | (_, g) :: rest =>
      match findCaveGroup data g R with
      | some r => some r
      | none => find_cave data rest R

/-- The loop of `Elf.pack_code`: `self.data[off + i] ^= key` for
`i in range(n)`, applied in increasing order of `i`.  A `List.set` out of
range is a no-op, matching no in-range write (Python would raise there;
theorems carry the in-bounds hypothesis). -/
def xorRange (data : List Nat) (off key : Nat) : Nat → List Nat
  | 0 => data
  | n + 1 =>
      let d := xorRange data off key n
      d.set (off + n) (byteAt d (off + n) ^^^ key)

/-- The section name `'.text'` as a byte string. -/
def dotText : List Nat := [46, 116, 101, 120, 116]

/-- `Elf.pack_code`: XOR every byte of the `'.text'` section's file range
with the key.  A missing `'.text'` section crashes in Python
(`text_sec` is `None`), hence `none`. -/
def pack_code (data : List Nat) (d : List (Nat × List Sec)) (key : Nat) :
    Option (List Nat) :=
  (get_section d dotText).map
    (fun t => xorRange data t.sh_offset key t.sh_size)

/-- Python slice assignment `data[lo:hi] = repl` on a `bytearray`, for
`lo ≤ hi`: the (clamped) range is removed and `repl` spliced in. -/
def sliceAssign (data : List Nat) (lo hi : Nat) (repl : List Nat) :
    List Nat :=
  data.take lo ++ repl ++ data.drop hi

/-- `Elf.change_ep`: `self.data[24:24+4] = p32(new_ep)`. -/
def change_ep (data : List Nat) (new_ep : Nat) : List Nat :=
  sliceAssign data 24 28 (p32 new_ep)

/-- `Elf.write_unpacker`: the body is
`self.data[unpacker_off:unpacker_off+len(asm)] = asm`, which reads the
module-level global `unpacker_off` — the parameter `off` of the method
is never used.  Both are modelled explicitly: `g` is the global's value
at call time, `off` the (ignored) argument. -/
def write_unpacker (data asm : List Nat) (g off : Nat) : List Nat :=
  sliceAssign data g (g + asm.length) asm

/-- The 4-byte ELF magic checked by `__main__`. -/
def elfMagic : List Nat := [127, 69, 76, 70]

/-- The `__main__` pipeline on an in-memory image: magic check, parse the
header and the section table, `pack_code(0xa5)`, find a cave the size of
the stub (the stub's bytes come from the external assembler and are a
parameter here), patch the entry point to the cave's virtual address and
write the stub at the cave's file offset (at the call site the global
`unpacker_off` equals the `off` argument), and return the buffer that
would be written to the output file.  Any failing stage aborts with no
output. -/
def pipeline (data stub : List Nat) : Option (List Nat) :=
  if data.take 4 = elfMagic then
    match parse_header data with
    | none => none
    | some hdr =>
        match parse_sections_header data hdr with
        | none => none
        | some (d, _) =>
            match pack_code data d 165 with
            | none => none
            | some data1 =>
                match find_cave data1 d stub.length with
                | none => none
                | some (addr, off) =>
                    some (write_unpacker (change_ep data1 addr) stub off off)
  else none

/-- One 40-byte section-table entry, as 10 little-endian 32-bit words
(used to build concrete test images). -/
def secEntry (nm ty fl ad off sz lk info al ent : Nat) : List Nat :=
  p32 nm ++ p32 ty ++ p32 fl ++ p32 ad ++ p32 off ++ p32 sz ++ p32 lk
    ++ p32 info ++ p32 al ++ p32 ent

/-- The string table of the test image:
`"\0.text\0.two\0.three\0.shstrtab\0"` (29 bytes). -/
def testStrtab : List Nat :=
  [0] ++ dotText ++ [0] ++ [46, 116, 119, 111] ++ [0]
    ++ [46, 116, 104, 114, 101, 101] ++ [0]
    ++ [46, 115, 104, 115, 116, 114, 116, 97, 98] ++ [0]

/-- A concrete 400-byte ELF32 image: a 52-byte header (`e_shoff = 200`,
`e_shentsize = 40`, `e_shnum = 5`, `e_shstrndx = 4`), section contents at
offsets 60 (`.text`), 70 (`.two`), 80 (`.three`), the string table at 90,
and a 5-entry section table at 200.  `.text` (type 1) has no zero run of
length 3, `.two` (type 2) has a run of exactly 3 at relative offset 2,
`.three` (type 1) has a run of exactly 4 at relative offset 1. -/
def testImage : List Nat :=
  [127, 69, 76, 70, 1, 1, 1, 0, 0, 0, 0, 0, 0, 0, 0, 0]
    ++ w16 2 ++ w16 3 ++ p32 1 ++ p32 4096 ++ p32 52 ++ p32 200 ++ p32 0
    ++ w16 52 ++ w16 32 ++ w16 0 ++ w16 40 ++ w16 5 ++ w16 4
    ++ List.replicate 8 238
    ++ [1, 0, 0, 1, 1, 0, 1, 1]
    ++ [238, 238]
    ++ [9, 9, 0, 0, 0, 7, 7, 7]
    ++ [238, 238]
    ++ [5, 0, 0, 0, 0, 6, 6, 6]
    ++ [238, 238]
    ++ testStrtab
    ++ List.replicate 81 238
    ++ List.replicate 40 0
    ++ secEntry 1 1 6 4096 60 8 0 0 4 0
    ++ secEntry 7 2 0 8192 70 8 0 0 1 0
    ++ secEntry 12 1 0 12288 80 8 0 0 1 0
    ++ secEntry 19 3 0 0 90 29 0 0 1 0

/-- The header `parse_header` extracts from `testImage`. -/
def testHdr : Header :=
  { e_ident := [127, 69, 76, 70, 1, 1, 1, 0, 0, 0, 0, 0, 0, 0, 0, 0]
    e_type := 2, e_machine := 3, e_version := 1, e_entry := 4096
    e_phoff := 52, e_shoff := 200, e_flags := 0, e_ehsize := 52
    e_phentsize := 32, e_phnum := 0, e_shentsize := 40, e_shnum := 5
    e_shstrndx := 4 }

/-- Table entry 1 of `testImage`, name resolved. -/
def testTextSec : Sec :=
  { sh_name := 1, sh_type := 1, sh_flags := 6, sh_addr := 4096
    sh_offset := 60, sh_size := 8, sh_link := 0, sh_info := 0
    sh_addralign := 4, sh_entsize := 0, name := dotText }

/-- Table entry 2 of `testImage` (`.two`), name resolved. -/
def testTwoSec : Sec :=
  { sh_name := 7, sh_type := 2, sh_flags := 0, sh_addr := 8192
    sh_offset := 70, sh_size := 8, sh_link := 0, sh_info := 0
    sh_addralign := 1, sh_entsize := 0, name := [46, 116, 119, 111] }

/-- Table entry 3 of `testImage` (`.three`), name resolved. -/
def testThreeSec : Sec :=
  { sh_name := 12, sh_type := 1, sh_flags := 0, sh_addr := 12288
    sh_offset := 80, sh_size := 8, sh_link := 0, sh_info := 0
    sh_addralign := 1, sh_entsize := 0
    name := [46, 116, 104, 114, 101, 101] }

/-- Table entry 4 of `testImage` (`.shstrtab`), name resolved. -/
def testStrtabSec : Sec :=
  { sh_name := 19, sh_type := 3, sh_flags := 0, sh_addr := 0
    sh_offset := 90, sh_size := 29, sh_link := 0, sh_info := 0
    sh_addralign := 1, sh_entsize := 0
    name := [46, 115, 104, 115, 116, 114, 116, 97, 98] }

/-- The type-keyed section dictionary `parse_sections_header` builds from
`testImage`: type 1 first (entries 1 and 3, in table order), then type 2
(entry 2), then type 3 (entry 4). -/
def testDict : List (Nat × List Sec) :=
  [(1, [testTextSec, testThreeSec]), (2, [testTwoSec]),
   (3, [testStrtabSec])]

/-- A zero run of `R` bytes at section-relative offset `O`, inside the
section's `size`-byte file range starting at `off`: the qualification a
cave candidate must meet. -/
def qualifies (data : List Nat) (off size R O : Nat) : Prop :=
  O + R ≤ size ∧ ∀ i, i < R → byteAt data (off + O + i) = 0

instance (data : List Nat) (off size R O : Nat) :
    Decidable (qualifies data off size R O) := by
  unfold qualifies; infer_instance

/-- The concatenation of the dictionary's groups: the order in which the
nested loops of `find_cave` and `get_section` visit the sections. -/
def flatSecs (d : List (Nat × List Sec)) : List Sec :=
  (d.map Prod.snd).flatten

/-- The mutable `Elf` object: the byte buffer plus the attributes the
parsing methods assign (`none` meaning "not yet assigned"; reading an
unassigned attribute is a Python `AttributeError`, modelled as failure). -/
structure ElfState where
  data : List Nat
  header : Option Header := none
  sections : Option (List (Nat × List Sec)) := none
  string_table_offset : Option Nat := none
deriving DecidableEq, Repr

/-- Method call `self.parse_header()`: decode the header fields and store
them on the object.  The body only reads `self.data`. -/
def ElfState.parse_header_m (e : ElfState) : Option ElfState :=
  (parse_header e.data).map (fun h => { e with header := some h })

/-- Method call `self.parse_sections_header()`: requires the header
attributes; stores the section dictionary and the string-table offset.
The body only reads `self.data`. -/
def ElfState.parse_sections_m (e : ElfState) : Option ElfState :=
  match e.header with
  | none => none
  | some h =>
      (parse_sections_header e.data h).map
        (fun r =>
          { e with sections := some r.1, string_table_offset := r.2 })

/-- Method call `self.get_string(index)`: requires
`self.string_table_offset`; returns the decoded string.  The body only
reads `self.data`, so the object is returned unchanged. -/
def ElfState.get_string_m (e : ElfState) (index : Nat) :
    Option (List Nat × ElfState) :=
  match e.string_table_offset with
  | none => none
  | some sto => (get_string e.data sto index).map (fun s => (s, e))

/-- Method call `self.get_section(name)`: requires `self.sections`; a
missing name is Python `None`, not an exception.  The body does not
touch `self.data`. -/
def ElfState.get_section_m (e : ElfState) (target : List Nat) :
    Option (Option Sec × ElfState) :=
  match e.sections with
  | none => none
  | some d => some (get_section d target, e)

/-- Method call `self.find_cave(required_size)`: requires
`self.sections`; the body only reads `self.data`. -/
def ElfState.find_cave_m (e : ElfState) (R : Nat) :
    Option (Option (Nat × Nat) × ElfState) :=
  match e.sections with
  | none => none
  | some d => some (find_cave e.data d R, e)

/-- A no-file-bits section (`sh_type = 8`) whose file range happens to
decode as zeros: entry 1 of a one-section image. -/
def nobitsSec : Sec :=
  { sh_name := 0, sh_type := 8, sh_flags := 0, sh_addr := 20480
    sh_offset := 0, sh_size := 6, sh_link := 0, sh_info := 0
    sh_addralign := 1, sh_entsize := 0, name := [46, 98, 115, 115] }

/-- A small demonstration section over the 5-byte buffer
`[1, 0, 0, 0, 1]`: type 1, file offset 0, size 5, virtual address 100. -/
def caveDemoSec : Sec :=
  { sh_name := 0, sh_type := 1, sh_flags := 0, sh_addr := 100
    sh_offset := 0, sh_size := 5, sh_link := 0, sh_info := 0
    sh_addralign := 1, sh_entsize := 0, name := dotText }

/-- The freshly constructed `Elf` object for `testImage`. -/
def testState0 : ElfState := { data := testImage }

/-- `testState0` after `parse_header()`. -/
def testState1 : ElfState := { data := testImage, header := some testHdr }

/-- `testState1` after `parse_sections_header()`. -/
def testState2 : ElfState :=
  { data := testImage, header := some testHdr, sections := some testDict
    string_table_offset := some 90 }

/-! ## Byte-level helper lemmas -/

theorem byteAt_append_left {l1 l2 : List Nat} {i : Nat} (h : i < l1.length) :
    byteAt (l1 ++ l2) i = byteAt l1 i :=
  List.getD_append l1 l2 0 i h

theorem byteAt_append_right {l1 l2 : List Nat} {i : Nat}
    (h : l1.length ≤ i) :
    byteAt (l1 ++ l2) i = byteAt l2 (i - l1.length) :=
  List.getD_append_right l1 l2 0 i h

theorem byteAt_take (data : List Nat) (n i : Nat) (h : i < n) :
    byteAt (data.take n) i = byteAt data i := by
  induction data generalizing n i with
  | nil => simp [byteAt]
  | cons a rest ih =>
      cases n with
      | zero => omega
      | succ m =>
          cases i with
          | zero => rfl
          | succ j => simpa [byteAt] using ih m j (by omega)

theorem byteAt_drop (data : List Nat) (n i : Nat) :
    byteAt (data.drop n) i = byteAt data (n + i) := by
  induction data generalizing n with
  | nil => simp [byteAt]
  | cons a rest ih =>
      cases n with
      | zero => simp [byteAt]
      | succ m =>
          have h1 : m + 1 + i = (m + i) + 1 := by omega
          rw [List.drop_succ_cons, ih m, h1, byteAt, byteAt,
            List.getD_cons_succ]

theorem byteAt_set (l : List Nat) (i j v : Nat) :
    byteAt (l.set i v) j =
      if i = j ∧ j < l.length then v else byteAt l j := by
  by_cases hij : i = j ∧ j < l.length
  · obtain ⟨rfl, hj⟩ := hij
    rw [if_pos ⟨rfl, hj⟩, byteAt,
      List.getD_eq_getElem _ _ (by simpa using hj)]
    exact List.getElem_set_self _
  · rw [if_neg hij]
    by_cases hj : j < l.length
    · have hne : i ≠ j := fun h => hij ⟨h, hj⟩
      rw [byteAt, List.getD_eq_getElem _ _ (by simpa using hj), byteAt,
        List.getD_eq_getElem _ _ hj]
      exact List.getElem_set_ne hne _
    · rw [byteAt, List.getD_eq_default _ _ (by simpa using Nat.le_of_not_lt hj),
        byteAt, List.getD_eq_default _ _ (Nat.le_of_not_lt hj)]

theorem ext_byteAt {l1 l2 : List Nat} (hlen : l1.length = l2.length)
    (h : ∀ i, i < l1.length → byteAt l1 i = byteAt l2 i) : l1 = l2 := by
  apply List.ext_getElem hlen
  intro i h1 h2
  have := h i h1
  rwa [byteAt, List.getD_eq_getElem _ _ h1, byteAt,
    List.getD_eq_getElem _ _ h2] at this

/-! ## `xorRange` (the loop of `pack_code`) -/

theorem length_xorRange (data : List Nat) (off key : Nat) :
    ∀ n, (xorRange data off key n).length = data.length
  | 0 => rfl
  | n + 1 => by
      simp [xorRange, List.length_set, length_xorRange data off key n]

theorem byteAt_xorRange (data : List Nat) (off key : Nat) (n i : Nat) :
    byteAt (xorRange data off key n) i =
      if off ≤ i ∧ i < off + n ∧ i < data.length then byteAt data i ^^^ key
      else byteAt data i := by
  induction n with
  | zero =>
      have : ¬(off ≤ i ∧ i < off + 0 ∧ i < data.length) := by omega
      rw [if_neg this]; rfl
  | succ n ih =>
      show byteAt ((xorRange data off key n).set (off + n) _) i = _
      rw [byteAt_set, length_xorRange]
      by_cases hcur : off + n = i ∧ i < data.length
      · obtain ⟨hi, hlen⟩ := hcur
        subst hi
        rw [if_pos ⟨rfl, hlen⟩, ih, if_neg (by omega),
          if_pos ⟨by omega, by omega, hlen⟩]
      · rw [if_neg hcur, ih]
        by_cases h1 : off ≤ i ∧ i < off + n ∧ i < data.length
        · rw [if_pos h1, if_pos (by omega)]
        · have : ¬(off ≤ i ∧ i < off + (n + 1) ∧ i < data.length) := by
            rcases Nat.lt_or_ge i data.length with hl | hl
            · intro ⟨a, b, c⟩
              exact h1 ⟨a, by omega, c⟩
            · omega
          rw [if_neg h1, if_neg this]

theorem xorRange_involutive (data : List Nat) (off key n : Nat) :
    xorRange (xorRange data off key n) off key n = data := by
  apply ext_byteAt (by rw [length_xorRange, length_xorRange])
  intro i _
  rw [byteAt_xorRange, byteAt_xorRange, length_xorRange]
  by_cases h : off ≤ i ∧ i < off + n ∧ i < data.length
  · rw [if_pos h, if_pos h, Nat.xor_cancel_right]
  · rw [if_neg h, if_neg h]

/-! ## `sliceAssign` (Python slice assignment) -/

theorem length_sliceAssign (data repl : List Nat) (lo hi : Nat)
    (hlo : lo ≤ hi) (hhi : hi ≤ data.length)
    (hrepl : repl.length = hi - lo) :
    (sliceAssign data lo hi repl).length = data.length := by
  simp [sliceAssign, List.length_append, List.length_take,
    List.length_drop]
  omega

theorem byteAt_sliceAssign (data repl : List Nat) (lo hi : Nat)
    (hlo : lo ≤ hi) (hhi : hi ≤ data.length)
    (hrepl : repl.length = hi - lo) (i : Nat) :
    byteAt (sliceAssign data lo hi repl) i =
      if i < lo then byteAt data i
      else if i < hi then byteAt repl (i - lo)
      else byteAt data i := by
  have htake : (data.take lo).length = lo := by
    simp [List.length_take]; omega
  rw [sliceAssign, List.append_assoc]
  by_cases h1 : i < lo
  · rw [if_pos h1, byteAt_append_left (by omega), byteAt_take data lo i h1]
  · rw [if_neg h1, byteAt_append_right (by omega), htake]
    by_cases h2 : i < hi
    · rw [if_pos h2, byteAt_append_left (by omega)]
    · rw [if_neg h2, byteAt_append_right (by omega), hrepl, byteAt_drop]
      congr 1
      omega

/-! ## The cave-scanning loop -/

theorem py_int_eq_enum_false (t v : Nat) : py_int_eq_enum t v = false := rfl

/-- If some offset `O` carries a qualifying zero run and no offset below
`O` does, the scanning loop stops with `seen_nulls = R` and
`checkpoint = O`.  The hypotheses are the loop invariant: `rem`
iterations left, `checkpoint + seen_nulls = index`, the current run
`[cp, index)` is all zeros and shorter than `R`, and no qualifying
offset lies below `cp`. -/
theorem caveLoop_reaches (data : List Nat) (off size R : Nat) (hR : 1 ≤ R)
    (O : Nat) (hq : qualifies data off size R O) :
    ∀ rem index seen cp,
      index + rem = size → cp + seen = index → seen < R →
      (∀ i, cp ≤ i → i < index → byteAt data (off + i) = 0) →
      cp ≤ O →
      (∀ o, cp ≤ o → o < O → ¬ qualifies data off size R o) →
      caveLoop data off R rem index seen cp = (R, O) := by
  intro rem
  induction rem with
  | zero =>
      intro index seen cp hsize hcp hseen _ hcpO _
      exfalso
      obtain ⟨hOR, _⟩ := hq
      omega
  | succ rem ih =>
      intro index seen cp hsize hcp hseen hzeros hcpO hmin
      simp only [caveLoop]
      by_cases hc : byteAt data (off + index) = 0
      · simp only [if_pos hc]
        by_cases hbreak : seen + 1 = R
        · simp only [if_pos hbreak]
          have hqcp : qualifies data off size R cp := by
            refine ⟨by omega, fun i hi => ?_⟩
            rcases Nat.lt_or_ge (cp + i) index with h | h
            · rw [Nat.add_assoc]
              exact hzeros (cp + i) (by omega) h
            · have : cp + i = index := by omega
              rw [Nat.add_assoc, this]  -- off + cp + i = off + index
              exact hc
          have hOcp : O = cp := by
            rcases Nat.lt_or_ge cp O with h | h
            · exact absurd hqcp (hmin cp (by omega) h)
            · omega
          rw [hbreak, hOcp]
        · simp only [if_neg hbreak]
          exact ih (index + 1) (seen + 1) cp (by omega) (by omega)
            (by omega)
            (fun i h1 h2 => by
              rcases Nat.lt_or_ge i index with h | h
              · exact hzeros i h1 h
              · have : i = index := by omega
                rw [this]; exact hc)
            hcpO hmin
      · simp only [if_neg hc]
        have h0R : ¬(0 = R) := by omega
        simp only [if_neg h0R]
        have hO1 : index + 1 ≤ O := by
          by_contra hlt
          obtain ⟨hOR, hOz⟩ := hq
          rcases Nat.lt_or_ge index (O + R) with h | h
          · exact hc (by
              have := hOz (index - O) (by omega)
              have harr : off + O + (index - O) = off + index := by omega
              rwa [harr] at this)
          · omega
        exact ih (index + 1) 0 (index + 1) (by omega) (by omega) (by omega)
          (fun i h1 h2 => by omega)
          hO1
          (fun o h1 h2 => hmin o (by omega) h2)

/-- If no offset at all carries a qualifying zero run, the loop finishes
with `seen_nulls < R`. -/
theorem caveLoop_misses (data : List Nat) (off size R : Nat) (hR : 1 ≤ R)
    (hnone : ∀ o, ¬ qualifies data off size R o) :
    ∀ rem index seen cp,
      index + rem = size → cp + seen = index → seen < R →
      (∀ i, cp ≤ i → i < index → byteAt data (off + i) = 0) →
      (caveLoop data off R rem index seen cp).1 < R := by
  intro rem
  induction rem with
  | zero =>
      intro index seen cp _ _ hseen _
      exact hseen
  | succ rem ih =>
      intro index seen cp hsize hcp hseen hzeros
      simp only [caveLoop]
      by_cases hc : byteAt data (off + index) = 0
      · simp only [if_pos hc]
        by_cases hbreak : seen + 1 = R
        · exfalso
          refine hnone cp ⟨by omega, fun i hi => ?_⟩
          rcases Nat.lt_or_ge (cp + i) index with h | h
          · rw [Nat.add_assoc]
            exact hzeros (cp + i) (by omega) h
          · have : cp + i = index := by omega
            rw [Nat.add_assoc, this]
            exact hc
        · simp only [if_neg hbreak]
          exact ih (index + 1) (seen + 1) cp (by omega) (by omega) (by omega)
            (fun i h1 h2 => by
              rcases Nat.lt_or_ge i index with h | h
              · exact hzeros i h1 h
              · have : i = index := by omega
                rw [this]; exact hc)
      · simp only [if_neg hc]
        have h0R : ¬(0 = R) := by omega
        simp only [if_neg h0R]
        exact ih (index + 1) 0 (index + 1) (by omega) (by omega) (by omega)
          (fun i h1 h2 => by omega)

/-- `scanSec` returns the first qualifying offset of the section,
translated to a (virtual address, file offset) pair. -/
theorem scanSec_eq_some (data : List Nat) (sec : Sec) (R O : Nat)
    (hR : 1 ≤ R) (hq : qualifies data sec.sh_offset sec.sh_size R O)
    (hmin : ∀ o, o < O → ¬ qualifies data sec.sh_offset sec.sh_size R o) :
    scanSec data sec R = some (sec.sh_addr + O, sec.sh_offset + O) := by
  have h := caveLoop_reaches data sec.sh_offset sec.sh_size R hR O hq
    sec.sh_size 0 0 0 (by omega) rfl (by omega) (fun i h1 h2 => by omega)
    (Nat.zero_le O) (fun o _ h2 => hmin o h2)
  unfold scanSec
  rw [h]
  simp

/-- A section with no qualifying offset yields nothing. -/
theorem scanSec_eq_none (data : List Nat) (sec : Sec) (R : Nat)
    (hR : 1 ≤ R)
    (hnone : ∀ o, ¬ qualifies data sec.sh_offset sec.sh_size R o) :
    scanSec data sec R = none := by
  have h := caveLoop_misses data sec.sh_offset sec.sh_size R hR hnone
    sec.sh_size 0 0 0 (by omega) rfl (by omega) (fun i h1 h2 => by omega)
  unfold scanSec
  rw [if_pos h]

/-- A section with a qualifying offset yields a cave. -/
theorem scanSec_isSome (data : List Nat) (sec : Sec) (R : Nat)
    (hR : 1 ≤ R)
    (hex : ∃ o, qualifies data sec.sh_offset sec.sh_size R o) :
    (scanSec data sec R).isSome = true := by
  rw [scanSec_eq_some data sec R (Nat.find hex) hR (Nat.find_spec hex)
    (fun o ho => Nat.find_min hex ho)]
  rfl

theorem findCaveGroup_cons (data : List Nat) (s : Sec) (rest : List Sec)
    (R : Nat) :
    findCaveGroup data (s :: rest) R =
      match scanSec data s R with
      | some r => some r
      | none => findCaveGroup data rest R := by
  simp [findCaveGroup, py_int_eq_enum]

theorem findCaveGroup_append (data : List Nat) (l1 l2 : List Sec)
    (R : Nat) :
    findCaveGroup data (l1 ++ l2) R =
      match findCaveGroup data l1 R with
      | some r => some r
      | none => findCaveGroup data l2 R := by
  induction l1 with
  | nil => rfl
  | cons s rest ih =>
      rw [List.cons_append, findCaveGroup_cons, findCaveGroup_cons]
      cases scanSec data s R with
      | none => exact ih
      | some r => rfl

/-- `find_cave` visits the sections in the flattened dictionary order. -/
theorem find_cave_eq_flat (data : List Nat) (d : List (Nat × List Sec))
    (R : Nat) :
    find_cave data d R = findCaveGroup data (flatSecs d) R := by
  induction d with
  | nil => rfl
  | cons p rest ih =>
      obtain ⟨t, g⟩ := p
      have hflat : flatSecs ((t, g) :: rest) = g ++ flatSecs rest := by
        simp [flatSecs]
      rw [hflat, findCaveGroup_append]
      show (match findCaveGroup data g R with
        | some r => some r
        | none => find_cave data rest R) = _
      cases findCaveGroup data g R with
      | none => exact ih
      | some r => rfl

/-- The first section (in visiting order) whose scan succeeds determines
the result of the group scan. -/
theorem findCaveGroup_first (data : List Nat) (R : Nat) (res : Nat × Nat) :
    ∀ (l : List Sec) (j : Nat) (hj : j < l.length),
      (∀ s ∈ l.take j, scanSec data s R = none) →
      scanSec data (l.get ⟨j, hj⟩) R = some res →
      findCaveGroup data l R = some res := by
  intro l
  induction l with
  | nil => intro j hj; exact absurd hj (by simp)
  | cons s rest ih =>
      intro j hj hbefore hres
      cases j with
      | zero =>
          rw [findCaveGroup_cons]
          have : scanSec data s R = some res := hres
          rw [this]
      | succ k =>
          have hs : scanSec data s R = none := by
            apply hbefore
            rw [List.take_succ_cons]
            exact List.mem_cons_self s _
          rw [findCaveGroup_cons, hs]
          exact ih k (by simpa using hj)
            (fun x hx => hbefore x (by rw [List.take_succ_cons]; exact List.mem_cons_of_mem s hx))
            hres

theorem findCaveGroup_eq_none (data : List Nat) (R : Nat) :
    ∀ l : List Sec, (∀ s ∈ l, scanSec data s R = none) →
      findCaveGroup data l R = none := by
  intro l
  induction l with
  | nil => intro _; rfl
  | cons s rest ih =>
      intro h
      rw [findCaveGroup_cons, h s (List.mem_cons_self s rest)]
      exact ih (fun x hx => h x (List.mem_cons_of_mem s hx))

theorem find_cave_eq_none (data : List Nat) (R : Nat) :
    ∀ d : List (Nat × List Sec),
      (∀ p ∈ d, ∀ s ∈ p.2, scanSec data s R = none) →
      find_cave data d R = none := by
  intro d
  induction d with
  | nil => intro _; rfl
  | cons p rest ih =>
      intro h
      obtain ⟨t, g⟩ := p
      show (match findCaveGroup data g R with
        | some r => some r
        | none => find_cave data rest R) = none
      rw [findCaveGroup_eq_none data R g
        (fun s hs => h (t, g) (List.mem_cons_self _ _) s hs)]
      exact ih (fun q hq s hs => h q (List.mem_cons_of_mem _ hq) s hs)

/-- A one-section dictionary is searched exactly by the per-section
scan. -/
theorem find_cave_singleton (data : List Nat) (t : Nat) (sec : Sec)
    (R : Nat) :
    find_cave data [(t, [sec])] R = scanSec data sec R := by
  show (match findCaveGroup data [sec] R with
    | some r => some r
    | none => find_cave data [] R) = _
  rw [findCaveGroup_cons]
  cases scanSec data sec R with
  | none => rfl
  | some r => rfl

/-! ## The string-table scan -/

/-- The scanning loop of `get_string` returns the bytes before the first
zero byte at or after `pos`, and fails when no zero byte follows `pos`. -/
theorem getStringAux_spec (data : List Nat) :
    ∀ rem pos, data.length - pos ≤ rem →
      getStringAux data rem pos =
        if 0 ∈ data.drop pos then
          some ((data.drop pos).takeWhile (fun b => b != 0))
        else none := by
  intro rem
  induction rem with
  | zero =>
      intro pos hrem
      have hdrop : data.drop pos = [] := List.drop_eq_nil_of_le (by omega)
      rw [hdrop]
      simp [getStringAux]
  | succ rem ih =>
      intro pos hrem
      by_cases h : pos < data.length
      · have hdrop : data.drop pos = data.get ⟨pos, h⟩ :: data.drop (pos + 1) := by
          rw [List.get_eq_getElem]
          exact List.drop_eq_getElem_cons h
        rw [hdrop]
        simp only [getStringAux, dif_pos h]
        by_cases hc : data.get ⟨pos, h⟩ = 0
        · rw [if_pos hc]
          rw [if_pos (by rw [hc]; exact List.mem_cons_self 0 _),
            List.takeWhile_cons, hc]
          rfl
        · rw [if_neg hc, ih (pos + 1) (by omega),
            List.takeWhile_cons]
          have hbne : (data.get ⟨pos, h⟩ != 0) = true := by
            simpa using hc
          rw [hbne]
          by_cases hmem : 0 ∈ data.drop (pos + 1)
          · rw [if_pos hmem,
              if_pos (List.mem_cons_of_mem _ hmem)]
            rfl
          · rw [if_neg hmem, if_neg (by
              intro hin
              rcases List.mem_cons.mp hin with h0 | h0
              · exact hc h0.symm
              · exact hmem h0)]
            rfl
      · have hdrop : data.drop pos = [] := List.drop_eq_nil_of_le (by omega)
        rw [hdrop]
        simp [getStringAux, h]

/-! ## Claim theorems -/

/-- **C9**: `get_string(index)` returns exactly the characters strictly
before the first zero byte at or after `string_table_offset + index`,
and fails (Python `IndexError`, modelled `none`) when no zero byte
occurs before the end of the buffer; in particular the table
`".text\x00.data\x00"` resolves offset 0 to `".text"` and offset 6 to
`".data"`, and a table with no terminator fails rather than returning
the truncated prefix. -/
theorem get_string_spec :
    (∀ (data : List Nat) (sto index : Nat),
        get_string data sto index =
          if 0 ∈ data.drop (sto + index) then
            some ((data.drop (sto + index)).takeWhile (fun b => b != 0))
          else none) ∧
    get_string [46, 116, 101, 120, 116, 0, 46, 100, 97, 116, 97, 0] 0 0 =
      some [46, 116, 101, 120, 116] ∧
    get_string [46, 116, 101, 120, 116, 0, 46, 100, 97, 116, 97, 0] 0 6 =
      some [46, 100, 97, 116, 97] ∧
    get_string [46, 116, 101, 120, 116] 0 0 = none :=
  ⟨fun data sto index =>
      getStringAux_spec data (data.length - (sto + index)) (sto + index)
        (Nat.le_refl _),
   by decide, by decide, by decide⟩

/-- **C1** (refuting evaluation): on a one-section image whose only
section has `sh_type = 8` (`SHT_NOBITS`) and whose 6-byte file range is
all zeros, `find_cave(4)` returns the location `(sh_addr, sh_offset)`
inside that no-file-bits section: the guard
`sec.sh_type == SectionType.SHT_NOBITS` compares an `int` with an
`Enum` member and is always false, so no-file-bits sections are
scanned. -/
theorem find_cave_selects_nobits :
    nobitsSec.sh_type = SHT_NOBITS ∧
    find_cave [0, 0, 0, 0, 0, 0] [(8, [nobitsSec])] 4 =
      some (20480, 0) ∧
    nobitsSec.sh_offset ≤ 0 ∧
    0 + 4 ≤ nobitsSec.sh_offset + nobitsSec.sh_size := by
  refine ⟨rfl, by decide, by decide, by decide⟩

/-- **C7** (refuting evaluation): `write_unpacker(asm, off)` writes at
the module global `unpacker_off` (here 0), not at its `off` argument
(here 3): with buffer `[1,1,1,1,1,1]` and `asm = [9,9]` the result is
`[9,9,1,1,1,1]`, not the `[1,1,1,9,9,1]` the claim requires. -/
theorem write_unpacker_ignores_off_param :
    write_unpacker [1, 1, 1, 1, 1, 1] [9, 9] 0 3 = [9, 9, 1, 1, 1, 1] ∧
    write_unpacker [1, 1, 1, 1, 1, 1] [9, 9] 0 3 ≠ [1, 1, 1, 9, 9, 1] := by
  refine ⟨by decide, by decide⟩

/-- **C2**: packing is an involution: if `'.text'` resolves to section
`t` whose file range lies inside the buffer, running `pack_code(key)`
twice with the same single-byte key restores the buffer exactly. -/
theorem pack_code_involution (data : List Nat) (d : List (Nat × List Sec))
    (key : Nat) (t : Sec)
    (ht : get_section d dotText = some t)
    (hb : t.sh_offset + t.sh_size ≤ data.length)
    (hkey : key < 256) (hbytes : ∀ b ∈ data, b < 256) :
    (pack_code data d key).bind (fun d1 => pack_code d1 d key) =
      some data := by
  unfold pack_code
  simp only [ht, Option.map_some', Option.some_bind]
  rw [xorRange_involutive]

/-- **C2** witness: packing `testImage` twice restores it. -/
theorem pack_code_involution_witness :
    (pack_code testImage testDict 165).bind
      (fun d1 => pack_code d1 testDict 165) = some testImage :=
  pack_code_involution testImage testDict 165 testTextSec (by decide)
    (by decide) (by decide) (by decide)

/-- **C3**: scanning a single in-bounds section, (i) a zero run of
exactly `R` bytes at section-relative offset `O` with no qualifying run
before it makes `find_cave(R)` return `(sh_addr + O, sh_offset + O)`;
(ii) if no offset of the section carries a run of `R` zeros (so in
particular if the longest run has length `R - 1`), nothing is selected;
(iii) a run of `R` zeros occupying the last `R` bytes of the section is
selected. -/
theorem find_cave_first_run (data : List Nat) (sec : Sec) (R : Nat)
    (hR : 1 ≤ R) (hb : sec.sh_offset + sec.sh_size ≤ data.length) :
    (∀ O, qualifies data sec.sh_offset sec.sh_size R O →
      (O + R = sec.sh_size ∨ byteAt data (sec.sh_offset + O + R) ≠ 0) →
      (∀ o, o < O → ¬ qualifies data sec.sh_offset sec.sh_size R o) →
      find_cave data [(sec.sh_type, [sec])] R =
        some (sec.sh_addr + O, sec.sh_offset + O)) ∧
    ((∀ o, o < sec.sh_size →
        ¬ qualifies data sec.sh_offset sec.sh_size R o) →
      find_cave data [(sec.sh_type, [sec])] R = none) ∧
    (R ≤ sec.sh_size →
      (∀ i, i < R →
        byteAt data (sec.sh_offset + (sec.sh_size - R) + i) = 0) →
      (find_cave data [(sec.sh_type, [sec])] R).isSome = true) := by
  refine ⟨?_, ?_, ?_⟩
  · intro O hq _ hmin
    rw [find_cave_singleton]
    exact scanSec_eq_some data sec R O hR hq hmin
  · intro hnone
    rw [find_cave_singleton]
    refine scanSec_eq_none data sec R hR (fun o hq => ?_)
    exact hnone o (by obtain ⟨h1, _⟩ := hq; omega) hq
  · intro hRsize hzeros
    rw [find_cave_singleton]
    exact scanSec_isSome data sec R hR
      ⟨sec.sh_size - R, ⟨by omega, hzeros⟩⟩

/-- **C3** witness: over the buffer `[1, 0, 0, 0, 1]`, the run of
exactly 3 zeros at relative offset 1 is found at
`(sh_addr + 1, sh_offset + 1) = (101, 1)`. -/
theorem find_cave_first_run_witness :
    find_cave [1, 0, 0, 0, 1] [(caveDemoSec.sh_type, [caveDemoSec])] 3 =
      some (caveDemoSec.sh_addr + 1, caveDemoSec.sh_offset + 1) :=
  (find_cave_first_run [1, 0, 0, 0, 1] caveDemoSec 3 (by decide)
      (by decide)).1 1 (by decide) (by decide) (by decide)

/-- **C4** (counterexample): in `testImage`, sections `.two` (table
index 2) and `.three` (table index 3) both contain a qualifying run of 3
zero bytes, yet `find_cave(3)` returns file offset 81, which lies in
`.three` and not in `.two`: the dictionary groups sections by type
(type 1 first), so `.three` is visited before `.two` despite its larger
table index. -/
theorem find_cave_not_table_order :
    parse_sections_header testImage testHdr = some (testDict, some 90) ∧
    qualifies testImage testTwoSec.sh_offset testTwoSec.sh_size 3 2 ∧
    qualifies testImage testThreeSec.sh_offset testThreeSec.sh_size 3 1 ∧
    find_cave testImage testDict 3 = some (12289, 81) ∧
    ¬(testTwoSec.sh_offset ≤ 81 ∧
        81 < testTwoSec.sh_offset + testTwoSec.sh_size) ∧
    testThreeSec.sh_offset ≤ 81 ∧
    81 < testThreeSec.sh_offset + testThreeSec.sh_size := by
  refine ⟨by decide, by decide, by decide, by decide, by decide,
    by decide, by decide⟩

/-- **C4** (amended): `find_cave` visits the sections in dictionary
order — groups keyed by section type in order of first appearance in
the table, sections inside a group in table order — and returns the
scan result of the first section in that order whose scan succeeds. -/
theorem find_cave_grouped_order (data : List Nat)
    (d : List (Nat × List Sec)) (R : Nat) (j : Nat)
    (hj : j < (flatSecs d).length)
    (hbefore : ∀ s ∈ (flatSecs d).take j, scanSec data s R = none)
    (res : Nat × Nat)
    (hres : scanSec data ((flatSecs d).get ⟨j, hj⟩) R = some res) :
    find_cave data d R = some res := by
  rw [find_cave_eq_flat]
  exact findCaveGroup_first data R res (flatSecs d) j hj hbefore hres

/-- **C4** (amended) witness: in `testImage` the grouped order is
`.text, .three, .two, .shstrtab`; `.text` yields nothing and `.three`
(position 1) yields `(12289, 81)`. -/
theorem find_cave_grouped_order_witness :
    find_cave testImage testDict 3 = some (12289, 81) :=
  find_cave_grouped_order testImage testDict 3 1 (by decide) (by decide)
    (12289, 81) (by decide)

/-- **C6**: patching the entry point to a 32-bit value `V` with
`change_ep` and re-running `parse_header` yields `e_entry = V` and
leaves every other header field (including `e_ident`) with its previous
parsed value. -/
theorem change_ep_header_roundtrip (data : List Nat) (V : Nat)
    (hdr : Header) (hV : V < 4294967296)
    (hhdr : parse_header data = some hdr) :
    parse_header (change_ep data V) = some { hdr with e_entry := V } := by
  have h52 : 52 ≤ data.length := by
    by_contra hlt
    rw [parse_header, if_neg hlt] at hhdr
    exact Option.noConfusion hhdr
  have hp32len : (p32 V).length = 28 - 24 := by rfl
  have hlen : (change_ep data V).length = data.length := by
    unfold change_ep
    exact length_sliceAssign data (p32 V) 24 28 (by omega) (by omega)
      hp32len
  have hbyte : ∀ i, i < 24 ∨ 28 ≤ i →
      byteAt (change_ep data V) i = byteAt data i := by
    intro i hi
    unfold change_ep
    rw [byteAt_sliceAssign data (p32 V) 24 28 (by omega) (by omega)
      hp32len i]
    rcases hi with h | h
    · rw [if_pos h]
    · rw [if_neg (by omega), if_neg (by omega)]
  have h24 : ∀ k, k < 4 →
      byteAt (change_ep data V) (24 + k) = byteAt (p32 V) k := by
    intro k hk
    unfold change_ep
    rw [byteAt_sliceAssign data (p32 V) 24 28 (by omega) (by omega)
      hp32len (24 + k), if_neg (by omega), if_pos (by omega)]
    congr 1
    omega
  have hr16 : ∀ j, j + 2 ≤ 24 ∨ 28 ≤ j →
      read16 (change_ep data V) j = read16 data j := by
    intro j hj
    unfold read16
    rw [hbyte j (by omega), hbyte (j + 1) (by omega)]
  have hr32 : ∀ j, j + 4 ≤ 24 ∨ 28 ≤ j →
      read32 (change_ep data V) j = read32 data j := by
    intro j hj
    unfold read32
    rw [hbyte j (by omega), hbyte (j + 1) (by omega),
      hbyte (j + 2) (by omega), hbyte (j + 3) (by omega)]
  have hident : (change_ep data V).take 16 = data.take 16 := by
    apply ext_byteAt
    · rw [List.length_take, List.length_take, hlen]
    · intro i hi
      have hi16 : i < 16 := by
        rw [List.length_take] at hi
        omega
      rw [byteAt_take _ _ _ hi16, byteAt_take _ _ _ hi16,
        hbyte i (by omega)]
  have hev : read32 (change_ep data V) 24 = V := by
    have e0 : byteAt (change_ep data V) 24 = byteAt (p32 V) 0 := by
      simpa using h24 0 (by omega)
    unfold read32
    rw [e0, h24 1 (by omega), h24 2 (by omega), h24 3 (by omega)]
    simp only [p32, byteAt, List.getD_cons_zero, List.getD_cons_succ]
    omega
  rw [parse_header, if_pos h52] at hhdr
  have hdreq := (Option.some.injEq _ _).mp hhdr
  subst hdreq
  rw [parse_header, if_pos (by omega : 52 ≤ (change_ep data V).length)]
  refine congrArg some ?_
  simp only [Header.mk.injEq]
  exact ⟨hident, hr16 16 (by omega), hr16 18 (by omega),
    hr32 20 (by omega), hev, hr32 28 (by omega), hr32 32 (by omega),
    hr32 36 (by omega), hr16 40 (by omega), hr16 42 (by omega),
    hr16 44 (by omega), hr16 46 (by omega), hr16 48 (by omega),
    hr16 50 (by omega)⟩

/-- **C6** witness: repatching `testImage` to entry point 77 reparses as
`testHdr` with `e_entry = 77`. -/
theorem change_ep_header_roundtrip_witness :
    parse_header (change_ep testImage 77) =
      some { testHdr with e_entry := 77 } :=
  change_ep_header_roundtrip testImage 77 testHdr (by omega) (by decide)

/-- **C5**: a successful pipeline run — `pack_code` on `'.text'`,
`change_ep`, `write_unpacker` — produces a buffer of unchanged length in
which every byte outside the `'.text'` file range
`[sh_offset, sh_offset + sh_size)`, outside the entry-point field
`[24, 28)`, and outside the cave region `[off, off + len(stub))` equals
the corresponding input byte. -/
theorem pipeline_frame (data stub : List Nat) (hdr : Header)
    (d : List (Nat × List Sec)) (sto : Option Nat) (t : Sec)
    (addr off : Nat)
    (hmagic : data.take 4 = elfMagic)
    (hhdr : parse_header data = some hdr)
    (hsec : parse_sections_header data hdr = some (d, sto))
    (ht : get_section d dotText = some t)
    (htb : t.sh_offset + t.sh_size ≤ data.length)
    (hcave : find_cave (xorRange data t.sh_offset 165 t.sh_size) d
        stub.length = some (addr, off))
    (hob : off + stub.length ≤ data.length) :
    ∃ out, pipeline data stub = some out ∧
      out.length = data.length ∧
      ∀ i, i < data.length →
        ¬(t.sh_offset ≤ i ∧ i < t.sh_offset + t.sh_size) →
        ¬(24 ≤ i ∧ i < 28) →
        ¬(off ≤ i ∧ i < off + stub.length) →
        byteAt out i = byteAt data i := by
  have h52 : 52 ≤ data.length := by
    by_contra hlt
    rw [parse_header, if_neg hlt] at hhdr
    exact Option.noConfusion hhdr
  have hp32len : (p32 addr).length = 28 - 24 := by rfl
  set data1 := xorRange data t.sh_offset 165 t.sh_size with hdata1
  have hlen1 : data1.length = data.length := length_xorRange data _ _ _
  set data2 := change_ep data1 addr with hdata2
  have hlen2 : data2.length = data.length := by
    rw [hdata2, change_ep,
      length_sliceAssign data1 (p32 addr) 24 28 (by omega) (by omega)
        hp32len, hlen1]
  set out := write_unpacker data2 stub off off with hout
  have hlen3 : out.length = data.length := by
    rw [hout, write_unpacker,
      length_sliceAssign data2 stub off (off + stub.length) (by omega)
        (by omega) (by omega), hlen2]
  refine ⟨out, ?_, hlen3, ?_⟩
  · simp only [pipeline, if_pos hmagic, hhdr, hsec, pack_code, ht,
      Option.map_some', ← hdata1, hcave]
  · intro i hi hnott hnotep hnotcave
    have hw : byteAt out i = byteAt data2 i := by
      rw [hout, write_unpacker,
        byteAt_sliceAssign data2 stub off (off + stub.length) (by omega)
          (by omega) (by omega) i]
      by_cases h1 : i < off
      · rw [if_pos h1]
      · rw [if_neg h1, if_neg (by
          intro h2
          exact hnotcave ⟨by omega, h2⟩)]
    have hc : byteAt data2 i = byteAt data1 i := by
      rw [hdata2, change_ep,
        byteAt_sliceAssign data1 (p32 addr) 24 28 (by omega) (by omega)
          hp32len i]
      by_cases h1 : i < 24
      · rw [if_pos h1]
      · rw [if_neg h1, if_neg (by
          intro h2
          exact hnotep ⟨by omega, h2⟩)]
    have hx : byteAt data1 i = byteAt data i := by
      rw [hdata1, byteAt_xorRange, if_neg (by
        intro ⟨a, b, c⟩
        exact hnott ⟨a, by omega⟩)]
    rw [hw, hc, hx]

/-- **C5** witness: the full pipeline on `testImage` with a 3-byte stub
succeeds and only the `.text` range `[60, 68)`, the entry-point field
`[24, 28)` and the cave region `[81, 84)` change. -/
theorem pipeline_frame_witness :
    ∃ out, pipeline testImage [7, 7, 7] = some out ∧
      out.length = testImage.length ∧
      ∀ i, i < testImage.length →
        ¬(testTextSec.sh_offset ≤ i ∧
            i < testTextSec.sh_offset + testTextSec.sh_size) →
        ¬(24 ≤ i ∧ i < 28) →
        ¬(81 ≤ i ∧ i < 81 + ([7, 7, 7] : List Nat).length) →
        byteAt out i = byteAt testImage i :=
  pipeline_frame testImage [7, 7, 7] testHdr testDict (some 90)
    testTextSec 12289 81 (by decide) (by decide) (by decide) (by decide)
    (by decide) (by decide) (by decide)

/-- **C8**: when no section visited by the cave search carries a run of
`len(stub)` consecutive zero bytes (in the buffer as it stands after
`pack_code`), `find_cave` returns no location, and the pipeline produces
no output buffer. -/
theorem no_cave_no_output (data stub : List Nat) (hdr : Header)
    (d : List (Nat × List Sec)) (sto : Option Nat) (t : Sec)
    (hmagic : data.take 4 = elfMagic)
    (hhdr : parse_header data = some hdr)
    (hsec : parse_sections_header data hdr = some (d, sto))
    (ht : get_section d dotText = some t)
    (hstub : 1 ≤ stub.length)
    (hnone : ∀ p ∈ d, ∀ sec ∈ p.2, ∀ O, O < sec.sh_size →
      ¬ qualifies (xorRange data t.sh_offset 165 t.sh_size) sec.sh_offset
          sec.sh_size stub.length O) :
    find_cave (xorRange data t.sh_offset 165 t.sh_size) d stub.length =
      none ∧
    pipeline data stub = none := by
  have hfc : find_cave (xorRange data t.sh_offset 165 t.sh_size) d
      stub.length = none := by
    apply find_cave_eq_none
    intro p hp s hs
    refine scanSec_eq_none _ _ _ hstub (fun o hq => ?_)
    exact hnone p hp s hs o (by obtain ⟨h1, _⟩ := hq; omega) hq
  refine ⟨hfc, ?_⟩
  simp only [pipeline, if_pos hmagic, hhdr, hsec, pack_code, ht,
    Option.map_some', hfc]

/-- **C8** witness: no section of `testImage` (packed) has a run of 10
zero bytes, so a 10-byte stub makes `find_cave` fail and the pipeline
produce nothing. -/
theorem no_cave_no_output_witness :
    find_cave
        (xorRange testImage testTextSec.sh_offset 165 testTextSec.sh_size)
        testDict (List.replicate 10 7).length = none ∧
    pipeline testImage (List.replicate 10 7) = none :=
  no_cave_no_output testImage (List.replicate 10 7) testHdr testDict
    (some 90) testTextSec (by decide) (by decide) (by decide) (by decide)
    (by decide) (by decide)

/-- **C10**: the query methods `parse_header`, `parse_sections_header`,
`get_string`, `get_section` and `find_cave` are read-only on the image:
whenever one of them completes, the object's `data` buffer is
byte-for-byte the buffer it started from (only `pack_code`, `change_ep`
and `write_unpacker` assign into `self.data`). -/
theorem read_ops_preserve_data (e : ElfState) :
    (∀ e2, ElfState.parse_header_m e = some e2 → e2.data = e.data) ∧
    (∀ e2, ElfState.parse_sections_m e = some e2 → e2.data = e.data) ∧
    (∀ i s e2, ElfState.get_string_m e i = some (s, e2) →
      e2.data = e.data) ∧
    (∀ t s e2, ElfState.get_section_m e t = some (s, e2) →
      e2.data = e.data) ∧
    (∀ R r e2, ElfState.find_cave_m e R = some (r, e2) →
      e2.data = e.data) := by
  refine ⟨?_, ?_, ?_, ?_, ?_⟩
  · intro e2 h
    obtain ⟨hd, _, he⟩ := Option.map_eq_some'.mp h
    rw [← he]
  · intro e2 h
    unfold ElfState.parse_sections_m at h
    cases hh : e.header with
    | none => rw [hh] at h; exact Option.noConfusion h
    | some hd =>
        rw [hh] at h
        obtain ⟨r, _, he⟩ := Option.map_eq_some'.mp h
        rw [← he]
  · intro i s e2 h
    unfold ElfState.get_string_m at h
    cases hh : e.string_table_offset with
    | none => rw [hh] at h; exact Option.noConfusion h
    | some sto =>
        rw [hh] at h
        obtain ⟨r, _, he⟩ := Option.map_eq_some'.mp h
        injection he with h1 h2
        rw [← h2]
  · intro t s e2 h
    unfold ElfState.get_section_m at h
    cases hh : e.sections with
    | none => rw [hh] at h; exact Option.noConfusion h
    | some d =>
        rw [hh] at h
        injection h with h1
        injection h1 with h2 h3
        rw [← h3]
  · intro R r e2 h
    unfold ElfState.find_cave_m at h
    cases hh : e.sections with
    | none => rw [hh] at h; exact Option.noConfusion h
    | some d =>
        rw [hh] at h
        injection h with h1
        injection h1 with h2 h3
        rw [← h3]

/-- **C10** witness: on `testImage`, each of the five query methods
completes and leaves the buffer untouched (`parse_header` on the fresh
object, `parse_sections_header` after it, and `get_string(1)`,
`get_section('.text')`, `find_cave(3)` on the fully parsed object). -/
theorem read_ops_preserve_data_witness :
    testState1.data = testState0.data ∧
    testState2.data = testState1.data ∧
    testState2.data = testState2.data ∧
    testState2.data = testState2.data ∧
    testState2.data = testState2.data :=
  ⟨(read_ops_preserve_data testState0).1 testState1 (by decide),
   (read_ops_preserve_data testState1).2.1 testState2 (by decide),
   (read_ops_preserve_data testState2).2.2.1 1 dotText testState2
     (by decide),
   (read_ops_preserve_data testState2).2.2.2.1 dotText
     (some testTextSec) testState2 (by decide),
   (read_ops_preserve_data testState2).2.2.2.2 3 (some (12289, 81))
     testState2 (by decide)⟩

end ElfPacker
